import Mathlib

/-!
Verification of the effect-size and fixed-effect pooling core of
`src/run_meta_analysis.py` against its specification.

The numeric code is embedded over exact real arithmetic (`ℝ`), with
`Real.sqrt` for `np.sqrt`.  Machine floats are modelled as reals; the
float-specific predicates of the validity filter (`notna`, `isfinite`)
are vacuously true over `ℝ`, so the filter reduces to `se_g > 0`.
-/

noncomputable section

/-- Pooled standard deviation, line 10 of `run_meta_analysis.py`:
`sd_pooled = np.sqrt(((n1 - 1) * sd1**2 + (n2 - 1) * sd2**2) / (n1 + n2 - 2))`. -/
def sd_pooled (n1 sd1 n2 sd2 : ℝ) : ℝ :=
  Real.sqrt (((n1 - 1) * sd1 ^ 2 + (n2 - 1) * sd2 ^ 2) / (n1 + n2 - 2))

/-- Hedges' small-sample correction factor, line 16:
`j = 1 - (3 / (4 * (n1 + n2 - 2) - 1))`. -/
def hedges_j (n1 n2 : ℝ) : ℝ := 1 - 3 / (4 * (n1 + n2 - 2) - 1)

/-- The function `calculate_smd`, lines 7-22.  The locals `d = (m1 - m2) / sd_pooled`,
`j`, `g = j * d` of the Python code are inlined; the returned pair is
`(g, se_g)` with `se_g = np.sqrt((n1 + n2) / (n1 * n2) + g**2 / (2 * (n1 + n2)))`,
and `(0, 0)` when `sd_pooled == 0`. -/
def calculate_smd (n1 m1 sd1 n2 m2 sd2 : ℝ) : ℝ × ℝ :=
  if sd_pooled n1 sd1 n2 sd2 = 0 then (0, 0)
  else
    (hedges_j n1 n2 * ((m1 - m2) / sd_pooled n1 sd1 n2 sd2),
     Real.sqrt ((n1 + n2) / (n1 * n2)
       + (hedges_j n1 n2 * ((m1 - m2) / sd_pooled n1 sd1 n2 sd2)) ^ 2 / (2 * (n1 + n2))))

/-- The Grouper's per-record validity predicate, line 140:
`outcome_df['se_g'].notna() & np.isfinite(outcome_df['se_g']) & (outcome_df['se_g'] > 0)`.
Over the exact-real embedding every value is non-null and finite, so the
predicate is `0 < se`. -/
def seValid (se : ℝ) : Prop := 0 < se

instance (se : ℝ) : Decidable (seValid se) := inferInstanceAs (Decidable (0 < se))

end

/-- C1: for valid inputs (`n1, n2 ≥ 2`, `sd_pooled > 0`), `calculate_smd`
returns exactly the closed-form `g = (1 - 3/(4*(n1+n2-2) - 1)) * (m1-m2)/sd_pooled`
and `se_g = sqrt((n1+n2)/(n1*n2) + g^2/(2*(n1+n2)))` of the spec. -/
theorem calculate_smd_formulas (n1 m1 sd1 n2 m2 sd2 : ℝ)
    (hn1 : 2 ≤ n1) (hn2 : 2 ≤ n2) (hsp : 0 < sd_pooled n1 sd1 n2 sd2) :
    (calculate_smd n1 m1 sd1 n2 m2 sd2).1
      = (1 - 3 / (4 * (n1 + n2 - 2) - 1)) * (m1 - m2) / sd_pooled n1 sd1 n2 sd2
    ∧ (calculate_smd n1 m1 sd1 n2 m2 sd2).2
      = Real.sqrt ((n1 + n2) / (n1 * n2)
          + (calculate_smd n1 m1 sd1 n2 m2 sd2).1 ^ 2 / (2 * (n1 + n2))) := by
  have hne : sd_pooled n1 sd1 n2 sd2 ≠ 0 := ne_of_gt hsp
  constructor
  · simp only [calculate_smd, hedges_j, if_neg hne]
    ring
  · simp only [calculate_smd, hedges_j, if_neg hne]

/-- Witness for C1 at `n1 = n2 = 2`, `m1 = m2 = 0`, `sd1 = sd2 = 1`
(there `sd_pooled = 1`). -/
theorem calculate_smd_formulas_witness :
    ((2:ℝ) ≤ 2 ∧ (2:ℝ) ≤ 2 ∧ 0 < sd_pooled 2 1 2 1)
    ∧ ((calculate_smd 2 0 1 2 0 1).1
        = (1 - 3 / (4 * ((2:ℝ) + 2 - 2) - 1)) * (0 - 0) / sd_pooled 2 1 2 1
      ∧ (calculate_smd 2 0 1 2 0 1).2
        = Real.sqrt (((2:ℝ) + 2) / (2 * 2)
            + (calculate_smd 2 0 1 2 0 1).1 ^ 2 / (2 * ((2:ℝ) + 2)))) := by
  have hsp : sd_pooled 2 1 2 1 = 1 := by
    simp only [sd_pooled]
    norm_num [Real.sqrt_one]
  have hpos : 0 < sd_pooled 2 1 2 1 := by rw [hsp]; norm_num
  exact ⟨⟨le_refl 2, le_refl 2, hpos⟩,
    calculate_smd_formulas 2 0 1 2 0 1 (le_refl 2) (le_refl 2) hpos⟩

/-- C2: when the pooled standard deviation is zero, `calculate_smd` returns
exactly `(0, 0)`, and the resulting record fails the Grouper's `se_g > 0`
validity filter, so it enters no pooled estimate. -/
theorem calculate_smd_degenerate (n1 m1 sd1 n2 m2 sd2 : ℝ)
    (h : sd_pooled n1 sd1 n2 sd2 = 0) :
    calculate_smd n1 m1 sd1 n2 m2 sd2 = (0, 0)
    ∧ ¬ seValid (calculate_smd n1 m1 sd1 n2 m2 sd2).2 := by
  have h1 : calculate_smd n1 m1 sd1 n2 m2 sd2 = (0, 0) := by
    simp only [calculate_smd, if_pos h]
  refine ⟨h1, ?_⟩
  rw [h1]
  exact lt_irrefl 0

/-- Witness for C2 at `n1 = n2 = 2`, both standard deviations zero. -/
theorem calculate_smd_degenerate_witness :
    sd_pooled 2 0 2 0 = 0
    ∧ (calculate_smd 2 0 0 2 0 0 = (0, 0)
       ∧ ¬ seValid (calculate_smd 2 0 0 2 0 0).2) := by
  have h : sd_pooled 2 0 2 0 = 0 := by
    simp only [sd_pooled]
    norm_num [Real.sqrt_zero]
  exact ⟨h, calculate_smd_degenerate 2 0 0 2 0 0 h⟩

/-- C7 counterexample: at sample sizes `n1 = 1`, `n2 = 2` we have
`n1 + n2 > 2`, yet the Hedges factor is `1 - 3/(4*(3-2) - 1) = 0`,
which is not strictly positive, refuting the claim as stated. -/
theorem hedges_j_cex :
    (2:ℝ) < 1 + 2 ∧ ¬ (0 < hedges_j 1 2 ∧ hedges_j 1 2 < 1) := by
  refine ⟨by norm_num, ?_⟩
  intro h
  have hz : hedges_j 1 2 = 0 := by
    simp only [hedges_j]
    norm_num
  rw [hz] at h
  exact lt_irrefl 0 h.1

/-- C7 amended: the Hedges factor is strictly between 0 and 1 for all
`n1 + n2 > 3` (in particular whenever both sample sizes are `≥ 2`). -/
theorem hedges_j_amended (n1 n2 : ℝ) (h : 3 < n1 + n2) :
    0 < hedges_j n1 n2 ∧ hedges_j n1 n2 < 1 := by
  have ht : (3:ℝ) < 4 * (n1 + n2 - 2) - 1 := by linarith
  have ht0 : (0:ℝ) < 4 * (n1 + n2 - 2) - 1 := by linarith
  constructor
  · have hlt : 3 / (4 * (n1 + n2 - 2) - 1) < 1 := (div_lt_one ht0).2 ht
    simp only [hedges_j]
    linarith
  · have hgt : 0 < 3 / (4 * (n1 + n2 - 2) - 1) := by positivity
    simp only [hedges_j]
    linarith

/-- Witness for the amended C7 at `n1 = n2 = 2`. -/
theorem hedges_j_amended_witness :
    (3:ℝ) < 2 + 2 ∧ (0 < hedges_j 2 2 ∧ hedges_j 2 2 < 1) :=
  ⟨by norm_num, hedges_j_amended 2 2 (by norm_num)⟩

/-- C9: swapping the intervention and control arms negates the effect size
and preserves its standard error, for all real inputs (in the degenerate
`sd_pooled = 0` case both directions return `(0, 0)`). -/
theorem calculate_smd_antisymm (n1 m1 sd1 n2 m2 sd2 : ℝ) :
    calculate_smd n2 m2 sd2 n1 m1 sd1
      = (-(calculate_smd n1 m1 sd1 n2 m2 sd2).1,
         (calculate_smd n1 m1 sd1 n2 m2 sd2).2) := by
  have hsp : sd_pooled n2 sd2 n1 sd1 = sd_pooled n1 sd1 n2 sd2 := by
    simp only [sd_pooled]
    ring_nf
  have hj : hedges_j n2 n1 = hedges_j n1 n2 := by
    simp only [hedges_j]
    ring_nf
  by_cases h : sd_pooled n1 sd1 n2 sd2 = 0
  · simp only [calculate_smd, hsp, hj, if_pos h, neg_zero]
  · simp only [calculate_smd, hsp, hj, if_neg h, Prod.mk.injEq]
    constructor
    · ring
    · congr 1
      ring

/-- A study record as seen by the Pooling Engine: its Hedges `g` and the
standard error `se_g` attached by the Calculator. -/
structure Study where
  g : ℝ
  se_g : ℝ

noncomputable section

/-- Per-study inverse-variance weight, line 148:
`outcome_df['w'] = 1 / outcome_df['se_g']**2`. -/
def weight (s : Study) : ℝ := 1 / s.se_g ^ 2

/-- The total weight `np.sum(outcome_df['w'])`. -/
def sumW (l : List Study) : ℝ := (l.map weight).sum

/-- Fixed-effect pooled estimate, line 149:
`pooled_g = np.sum(outcome_df['w'] * outcome_df['g']) / np.sum(outcome_df['w'])`. -/
def pooled_g (l : List Study) : ℝ :=
  (l.map (fun s => weight s * s.g)).sum / sumW l

/-- Pooled standard error, line 150:
`pooled_se = np.sqrt(1 / np.sum(outcome_df['w']))`. -/
def pooled_se (l : List Study) : ℝ := Real.sqrt (1 / sumW l)

/-- Minimum of the nonempty collection `a :: l`. -/
def minList (a : ℝ) (l : List ℝ) : ℝ := l.foldr min a

/-- Maximum of the nonempty collection `a :: l`. -/
def maxList (a : ℝ) (l : List ℝ) : ℝ := l.foldr max a

end

theorem minList_le_head (a : ℝ) (l : List ℝ) : minList a l ≤ a := by
  induction l with
  | nil => exact le_refl a
  | cons x xs ih => exact le_trans (min_le_right x _) ih

theorem minList_le_mem {x : ℝ} {l : List ℝ} (a : ℝ) (hx : x ∈ l) : minList a l ≤ x := by
  induction l with
  | nil => cases hx
  | cons y ys ih =>
    rcases List.mem_cons.1 hx with rfl | h
    · exact min_le_left x _
    · exact le_trans (min_le_right y _) (ih h)

theorem le_minList {c a : ℝ} {l : List ℝ} (ha : c ≤ a) (hl : ∀ x ∈ l, c ≤ x) :
    c ≤ minList a l := by
  induction l with
  | nil => exact ha
  | cons y ys ih =>
    refine le_min (hl y (List.mem_cons_self y ys)) (ih ?_)
    exact fun x hx => hl x (List.mem_cons_of_mem y hx)

theorem head_le_maxList (a : ℝ) (l : List ℝ) : a ≤ maxList a l := by
  induction l with
  | nil => exact le_refl a
  | cons x xs ih => exact le_trans ih (le_max_right x _)

theorem mem_le_maxList {x : ℝ} {l : List ℝ} (a : ℝ) (hx : x ∈ l) : x ≤ maxList a l := by
  induction l with
  | nil => cases hx
  | cons y ys ih =>
    rcases List.mem_cons.1 hx with rfl | h
    · exact le_max_left x _
    · exact le_trans (ih h) (le_max_right y _)

theorem weight_pos {s : Study} (h : 0 < s.se_g) : 0 < weight s := by
  rw [weight]
  positivity

theorem sumW_pos {l : List Study} (hne : l ≠ []) (hval : ∀ t ∈ l, 0 < t.se_g) :
    0 < sumW l := by
  apply List.sum_pos
  · intro x hx
    rcases List.mem_map.1 hx with ⟨t, htl, rfl⟩
    exact weight_pos (hval t htl)
  · exact fun h => hne (List.map_eq_nil_iff.1 h)

/-- C3: the fixed-effect pooled estimate of a nonempty group of records
with strictly positive standard errors lies between the smallest and the
largest per-study `g` (weighted-average boundedness). -/
theorem pooled_g_bounds (s : Study) (l : List Study)
    (hval : ∀ t ∈ s :: l, 0 < t.se_g) :
    minList s.g (l.map Study.g) ≤ pooled_g (s :: l)
    ∧ pooled_g (s :: l) ≤ maxList s.g (l.map Study.g) := by
  have hS : 0 < sumW (s :: l) := sumW_pos (List.cons_ne_nil s l) hval
  constructor
  · have hle : ∀ t ∈ s :: l, minList s.g (l.map Study.g) ≤ t.g := by
      intro t ht
      rcases List.mem_cons.1 ht with rfl | ht'
      · exact minList_le_head _ _
      · exact minList_le_mem _ (List.mem_map_of_mem Study.g ht')
    rw [pooled_g, le_div_iff₀ hS]
    calc minList s.g (l.map Study.g) * sumW (s :: l)
        = ((s :: l).map (fun t => minList s.g (l.map Study.g) * weight t)).sum := by
          rw [sumW, List.sum_map_mul_left]
      _ ≤ ((s :: l).map (fun t => weight t * t.g)).sum := by
          apply List.sum_le_sum
          intro t ht
          rw [mul_comm]
          exact mul_le_mul_of_nonneg_left (hle t ht) (le_of_lt (weight_pos (hval t ht)))
  · have hle : ∀ t ∈ s :: l, t.g ≤ maxList s.g (l.map Study.g) := by
      intro t ht
      rcases List.mem_cons.1 ht with rfl | ht'
      · exact head_le_maxList _ _
      · exact mem_le_maxList _ (List.mem_map_of_mem Study.g ht')
    rw [pooled_g, div_le_iff₀ hS]
    calc ((s :: l).map (fun t => weight t * t.g)).sum
        ≤ ((s :: l).map (fun t => weight t * maxList s.g (l.map Study.g))).sum := by
          apply List.sum_le_sum
          intro t ht
          exact mul_le_mul_of_nonneg_left (hle t ht) (le_of_lt (weight_pos (hval t ht)))
      _ = maxList s.g (l.map Study.g) * sumW (s :: l) := by
          rw [sumW, List.sum_map_mul_right, mul_comm]

/-- Witness for C3 on the two-study group `[(g=0, se=1), (g=1, se=1)]`. -/
theorem pooled_g_bounds_witness :
    (∀ t ∈ [(⟨0, 1⟩ : Study), ⟨1, 1⟩], 0 < t.se_g)
    ∧ (minList (Study.mk 0 1).g ([(⟨1, 1⟩ : Study)].map Study.g)
        ≤ pooled_g [⟨0, 1⟩, ⟨1, 1⟩]
      ∧ pooled_g [⟨0, 1⟩, ⟨1, 1⟩]
        ≤ maxList (Study.mk 0 1).g ([(⟨1, 1⟩ : Study)].map Study.g)) := by
  have hval : ∀ t ∈ [(⟨0, 1⟩ : Study), ⟨1, 1⟩], 0 < t.se_g := by
    intro t ht
    rcases List.mem_cons.1 ht with rfl | ht'
    · norm_num
    · rcases List.mem_cons.1 ht' with rfl | h
      · norm_num
      · cases h
  exact ⟨hval, pooled_g_bounds ⟨0, 1⟩ [⟨1, 1⟩] hval⟩

/-- C8: adding one more record with strictly positive standard error to a
nonempty valid group never increases the pooled standard error. -/
theorem pooled_se_decreasing (r : Study) (l : List Study) (hne : l ≠ [])
    (hval : ∀ t ∈ l, 0 < t.se_g) (hr : 0 < r.se_g) :
    pooled_se (r :: l) ≤ pooled_se l := by
  have hS : 0 < sumW l := sumW_pos hne hval
  have hw : 0 < weight r := weight_pos hr
  have hS' : sumW (r :: l) = weight r + sumW l := by
    simp [sumW, List.map_cons, List.sum_cons]
  rw [pooled_se, pooled_se]
  apply Real.sqrt_le_sqrt
  rw [hS']
  exact one_div_le_one_div_of_le hS (by linarith)

/-- Witness for C8: adding `(g=0, se=1)` to the group `[(g=0, se=1)]`. -/
theorem pooled_se_decreasing_witness :
    ([(⟨0, 1⟩ : Study)] ≠ [] ∧ (∀ t ∈ [(⟨0, 1⟩ : Study)], 0 < t.se_g)
      ∧ 0 < (Study.mk 0 1).se_g)
    ∧ pooled_se [⟨0, 1⟩, ⟨0, 1⟩] ≤ pooled_se [⟨0, 1⟩] := by
  have hval : ∀ t ∈ [(⟨0, 1⟩ : Study)], 0 < t.se_g := by
    intro t ht
    rcases List.mem_cons.1 ht with rfl | h
    · norm_num
    · cases h
  exact ⟨⟨List.cons_ne_nil _ _, hval, by norm_num⟩,
    pooled_se_decreasing ⟨0, 1⟩ [⟨0, 1⟩] (List.cons_ne_nil _ _) hval (by norm_num)⟩

/-- C10: the pooled standard error of a nonempty valid group is at most the
smallest individual standard error. -/
theorem pooled_se_le_min (s : Study) (l : List Study)
    (hval : ∀ t ∈ s :: l, 0 < t.se_g) :
    pooled_se (s :: l) ≤ minList s.se_g (l.map Study.se_g) := by
  have key : ∀ t ∈ s :: l, pooled_se (s :: l) ≤ t.se_g := by
    intro t ht
    have hse : 0 < t.se_g := hval t ht
    have hnn : ∀ x ∈ (s :: l).map weight, 0 ≤ x := by
      intro x hx
      rcases List.mem_map.1 hx with ⟨u, hul, rfl⟩
      exact le_of_lt (weight_pos (hval u hul))
    have hwle : weight t ≤ sumW (s :: l) :=
      List.single_le_sum hnn (weight t) (List.mem_map_of_mem weight ht)
    have h1 : 1 / sumW (s :: l) ≤ t.se_g ^ 2 := by
      have h2 : 1 / sumW (s :: l) ≤ 1 / weight t :=
        one_div_le_one_div_of_le (weight_pos hse) hwle
      rwa [weight, one_div_one_div] at h2
    calc pooled_se (s :: l) = Real.sqrt (1 / sumW (s :: l)) := rfl
      _ ≤ Real.sqrt (t.se_g ^ 2) := Real.sqrt_le_sqrt h1
      _ = t.se_g := by
          rw [Real.sqrt_sq (le_of_lt hse)]
  refine le_minList (key s (List.mem_cons_self s l)) ?_
  intro x hx
  rcases List.mem_map.1 hx with ⟨t, htl, rfl⟩
  exact key t (List.mem_cons_of_mem s htl)

/-- Witness for C10 on the singleton group `[(g=0, se=1)]`. -/
theorem pooled_se_le_min_witness :
    (∀ t ∈ [(⟨0, 1⟩ : Study)], 0 < t.se_g)
    ∧ pooled_se [⟨0, 1⟩] ≤ minList (Study.mk 0 1).se_g ([].map Study.se_g) := by
  have hval : ∀ t ∈ [(⟨0, 1⟩ : Study)], 0 < t.se_g := by
    intro t ht
    rcases List.mem_cons.1 ht with rfl | h
    · norm_num
    · cases h
  exact ⟨hval, pooled_se_le_min ⟨0, 1⟩ [] hval⟩

/-!
Embedding of the Run Orchestrator (`main`, lines 59-165) as a pure
function from the outcome of the input-file read to the pair of output
traces: the console lines and the lines of `_meta_analysis_output.txt`.
Each printed line is abstracted to a constructor tag carrying the data
that determines control flow (row counts, outcome names) plus, for the
pooled lines, the pooled values; textual formatting is not modelled.
-/

/-- One output line of the run. -/
inductive Msg where
  | errorFileNotFound
  | errorReadingCSV
  | loadedRows (n : Nat)
  | columnsMsg
  | outcomesAvailable (names : List String)
  | studiesMsg (names : List String)
  | blank
  | afterCleaning (n : Nat)
  | noCompleteData
  | outcomesWithMultiple (names : List String)
  | noMultipleOutcomes
  | singleOutcomesAvailable (names : List String)
  | singleStudyHeader (o : String)
  | rawValuesTable (o : String)
  | chartsHeader
  | metaHeader (o : String)
  | insufficientData (o : String)
  | resultsTable (o : String)
  | pooledSmdLine (o : String) (v : ℝ)
  | pooledSeLine (o : String) (v : ℝ)
  | ciLine (o : String) (lo hi : ℝ)
  | chartBlock (o : String)
  | savedForestPlot (o : String)
  | separatorLine (o : String)
  | finalMessage

/-- The two output traces of a run: what is printed to the console and
what is written into the report file. -/
structure Output where
  console : List Msg
  report : List Msg

instance : Append Output :=
  ⟨fun a b => ⟨a.console ++ b.console, a.report ++ b.report⟩⟩

/-- Model of `tee_print` (lines 66-69): the line goes to both destinations. -/
def tee (m : Msg) : Output := ⟨[m], [m]⟩

/-- A bare `print` call: console only. -/
def consoleOnly (m : Msg) : Output := ⟨[m], []⟩

/-- A direct `output_file.write` call: report file only. -/
def reportOnly (m : Msg) : Output := ⟨[], [m]⟩

/-- The empty trace pair. -/
def Output.nil : Output := ⟨[], []⟩

@[simp] theorem append_console (a b : Output) :
    (a ++ b).console = a.console ++ b.console := rfl

@[simp] theorem append_report (a b : Output) :
    (a ++ b).report = a.report ++ b.report := rfl

@[simp] theorem tee_console (m : Msg) : (tee m).console = [m] := rfl

@[simp] theorem tee_report (m : Msg) : (tee m).report = [m] := rfl

@[simp] theorem consoleOnly_console (m : Msg) : (consoleOnly m).console = [m] := rfl

@[simp] theorem consoleOnly_report (m : Msg) : (consoleOnly m).report = [] := rfl

@[simp] theorem reportOnly_console (m : Msg) : (reportOnly m).console = [] := rfl

@[simp] theorem reportOnly_report (m : Msg) : (reportOnly m).report = [m] := rfl

@[simp] theorem output_nil_console : Output.nil.console = [] := rfl

@[simp] theorem output_nil_report : Output.nil.report = [] := rfl

/-- One raw input row after `pd.to_numeric(..., errors='coerce')` on the
six essential columns (lines 87-93); `none` models a missing or
unparseable (NaN) cell. -/
structure RawRow where
  outcome_name : String
  author_year : String
  sample_size_intervention : Option ℝ
  sample_size_control : Option ℝ
  intervention_post_mean : Option ℝ
  intervention_post_sd : Option ℝ
  control_post_mean : Option ℝ
  control_post_sd : Option ℝ

/-- A row that survived `df.dropna(subset=essential_cols)` (line 96). -/
structure CleanRow where
  outcome_name : String
  author_year : String
  sample_size_intervention : ℝ
  sample_size_control : ℝ
  intervention_post_mean : ℝ
  intervention_post_sd : ℝ
  control_post_mean : ℝ
  control_post_sd : ℝ

/-- A raw row survives cleaning iff all six essential values are present. -/
def cleanRow (r : RawRow) : Option CleanRow :=
  match r.sample_size_intervention, r.sample_size_control, r.intervention_post_mean,
        r.intervention_post_sd, r.control_post_mean, r.control_post_sd with
  | some a, some b, some c, some d, some e, some f =>
      some ⟨r.outcome_name, r.author_year, a, b, c, d, e, f⟩
  | _, _, _, _, _, _ => none

/-- The cleaning pass `df_clean = df.dropna(subset=essential_cols)` (line 96). -/
def cleanTable (rows : List RawRow) : List CleanRow := rows.filterMap cleanRow

/-- pandas `Series.unique`: the distinct values in order of first
appearance. -/
def uniqueKeepFirst (l : List String) : List String :=
  l.foldl (fun acc x => if x ∈ acc then acc else acc ++ [x]) []

/-- Line 104: the outcomes having more than one cleaned row, in
first-appearance order —
`df_clean.groupby('outcome_name').filter(lambda x: len(x) > 1)['outcome_name'].unique()`. -/
def commonOutcomes (tbl : List CleanRow) : List String :=
  uniqueKeepFirst
    ((tbl.filter (fun r =>
        decide (1 < (tbl.filter
          (fun r2 => decide (r2.outcome_name = r.outcome_name))).length))).map
      (fun r => r.outcome_name))

noncomputable section

/-- The records of one outcome that survive the validity filter
(lines 129-141): select the outcome's cleaned rows, compute each row's
`(g, se_g)` via `calculate_smd`, and retain those with `se_g > 0`. -/
def validRecords (tbl : List CleanRow) (o : String) : List (ℝ × ℝ) :=
  ((tbl.filter (fun r => decide (r.outcome_name = o))).map (fun r => calculate_smd
      r.sample_size_intervention r.intervention_post_mean r.intervention_post_sd
      r.sample_size_control r.control_post_mean r.control_post_sd)).filter
    (fun p => decide (seValid p.2))

/-- The body of the per-outcome loop (lines 127-163): drop records failing
the `se_g > 0` validity filter (line 140), then either note insufficient
data (line 144) or emit the pooled results, the forest-plot chart block
(report only), and the saved-plot message (console only). -/
def processOutcome (tbl : List CleanRow) (o : String) : Output :=
  tee (Msg.metaHeader o) ++
  (if (validRecords tbl o).length < 2 then tee (Msg.insufficientData o)
   else
     (let studies := (validRecords tbl o).map (fun p => Study.mk p.1 p.2)
      tee (Msg.resultsTable o)
      ++ tee (Msg.pooledSmdLine o (pooled_g studies))
      ++ tee (Msg.pooledSeLine o (pooled_se studies))
      ++ tee (Msg.ciLine o (pooled_g studies - 1.96 * pooled_se studies)
          (pooled_g studies + 1.96 * pooled_se studies))
      ++ reportOnly (Msg.chartBlock o)
      ++ consoleOnly (Msg.savedForestPlot o)
      ++ tee (Msg.separatorLine o)
      ++ tee Msg.blank))

/-- The outcome of the `pd.read_csv` attempt (lines 72-84): the file may
be missing (`FileNotFoundError`), unreadable (any other exception), or
produce a list of rows. -/
inductive Input where
  | missingFile
  | readError
  | ok (rows : List RawRow)

/-- The function `main` (lines 59-165) as a trace function.  `tee` models `tee_print`,
`reportOnly` the direct `output_file.write` calls (charts header and
chart blocks), and `consoleOnly` the bare `print` calls (saved-plot and
final messages). -/
def runMeta : Input → Output
  | .missingFile => tee Msg.errorFileNotFound
  | .readError => tee Msg.errorReadingCSV
  | .ok rows =>
    let header :=
      tee (Msg.loadedRows rows.length) ++ tee Msg.columnsMsg
      ++ tee (Msg.outcomesAvailable (uniqueKeepFirst (rows.map (fun r => r.outcome_name))))
      ++ tee (Msg.studiesMsg (uniqueKeepFirst (rows.map (fun r => r.author_year))))
      ++ tee Msg.blank
    let clean := cleanTable rows
    let header2 := header ++ tee (Msg.afterCleaning clean.length)
    if clean.length = 0 then header2 ++ tee Msg.noCompleteData
    else
      let common := commonOutcomes clean
      let header3 := header2 ++ tee (Msg.outcomesWithMultiple common) ++ tee Msg.blank
      if common.length = 0 then
        let singles := uniqueKeepFirst (clean.map (fun r => r.outcome_name))
        header3 ++ tee Msg.noMultipleOutcomes
        ++ tee (Msg.singleOutcomesAvailable singles)
        ++ singles.foldl (fun acc o =>
            acc ++ (tee (Msg.singleStudyHeader o) ++ tee (Msg.rawValuesTable o)
              ++ tee Msg.blank)) Output.nil
      else
        header3 ++ reportOnly Msg.chartsHeader
        ++ common.foldl (fun acc o => acc ++ processOutcome clean o) Output.nil
        ++ consoleOnly Msg.finalMessage

/-- The outcomes for which the run enters the charts section. -/
def chartOutcomes : Input → List String
  | .ok rows => commonOutcomes (cleanTable rows)
  | _ => []

end

theorem console_foldl_mem (m : Msg) (f : String → Output) :
    ∀ (l : List String) (init : Output),
      m ∈ (l.foldl (fun acc o => acc ++ f o) init).console →
      m ∈ init.console ∨ ∃ o ∈ l, m ∈ (f o).console := by
  intro l
  induction l with
  | nil => exact fun init h => Or.inl h
  | cons x xs ih =>
    intro init h
    rcases ih (init ++ f x) h with h' | ⟨o, ho, hm⟩
    · rw [append_console] at h'
      rcases List.mem_append.1 h' with h'' | h''
      · exact Or.inl h''
      · exact Or.inr ⟨x, List.mem_cons_self x xs, h''⟩
    · exact Or.inr ⟨o, List.mem_cons_of_mem x ho, hm⟩

theorem report_foldl_mem (m : Msg) (f : String → Output) :
    ∀ (l : List String) (init : Output),
      m ∈ (l.foldl (fun acc o => acc ++ f o) init).report →
      m ∈ init.report ∨ ∃ o ∈ l, m ∈ (f o).report := by
  intro l
  induction l with
  | nil => exact fun init h => Or.inl h
  | cons x xs ih =>
    intro init h
    rcases ih (init ++ f x) h with h' | ⟨o, ho, hm⟩
    · rw [append_report] at h'
      rcases List.mem_append.1 h' with h'' | h''
      · exact Or.inl h''
      · exact Or.inr ⟨x, List.mem_cons_self x xs, h''⟩
    · exact Or.inr ⟨o, List.mem_cons_of_mem x ho, hm⟩

theorem singles_foldl_tee_eq :
    ∀ (l : List String) (init : Output), init.console = init.report →
      (l.foldl (fun acc o =>
        acc ++ (tee (Msg.singleStudyHeader o) ++ tee (Msg.rawValuesTable o)
          ++ tee Msg.blank)) init).console
      = (l.foldl (fun acc o =>
        acc ++ (tee (Msg.singleStudyHeader o) ++ tee (Msg.rawValuesTable o)
          ++ tee Msg.blank)) init).report := by
  intro l
  induction l with
  | nil => exact fun init h => h
  | cons x xs ih =>
    intro init h
    apply ih
    simp [h]

/-- Reduction of `runMeta` on a successful read whose cleaned table has at
least one multi-study outcome. -/
theorem runMeta_ok_of_common_ne (rows : List RawRow)
    (hc : (commonOutcomes (cleanTable rows)).length ≠ 0) :
    runMeta (Input.ok rows) =
      (tee (Msg.loadedRows rows.length) ++ tee Msg.columnsMsg
        ++ tee (Msg.outcomesAvailable (uniqueKeepFirst (rows.map (fun r => r.outcome_name))))
        ++ tee (Msg.studiesMsg (uniqueKeepFirst (rows.map (fun r => r.author_year))))
        ++ tee Msg.blank
        ++ tee (Msg.afterCleaning (cleanTable rows).length)
        ++ tee (Msg.outcomesWithMultiple (commonOutcomes (cleanTable rows)))
        ++ tee Msg.blank
        ++ reportOnly Msg.chartsHeader
        ++ (commonOutcomes (cleanTable rows)).foldl
            (fun acc o => acc ++ processOutcome (cleanTable rows) o) Output.nil
        ++ consoleOnly Msg.finalMessage) := by
  have hclean : ¬ (cleanTable rows).length = 0 := by
    intro h0
    apply hc
    rw [List.length_eq_zero.1 h0]
    rfl
  simp only [runMeta]
  rw [if_neg hclean, if_neg hc]

theorem processOutcome_no_chartsHeader_console (tbl : List CleanRow) (o : String) :
    Msg.chartsHeader ∉ (processOutcome tbl o).console := by
  intro hm
  simp only [processOutcome] at hm
  by_cases hlt : (validRecords tbl o).length < 2
  · rw [if_pos hlt] at hm
    simp at hm
  · rw [if_neg hlt] at hm
    simp at hm

theorem processOutcome_no_singleStudyHeader (tbl : List CleanRow) (o o' : String) :
    Msg.singleStudyHeader o ∉ (processOutcome tbl o').report := by
  intro hm
  simp only [processOutcome] at hm
  by_cases hlt : (validRecords tbl o').length < 2
  · rw [if_pos hlt] at hm
    simp at hm
  · rw [if_neg hlt] at hm
    simp at hm

theorem processOutcome_no_rawValuesTable (tbl : List CleanRow) (o o' : String) :
    Msg.rawValuesTable o ∉ (processOutcome tbl o').report := by
  intro hm
  simp only [processOutcome] at hm
  by_cases hlt : (validRecords tbl o').length < 2
  · rw [if_pos hlt] at hm
    simp at hm
  · rw [if_neg hlt] at hm
    simp at hm

theorem processOutcome_pooledSmdLine_inv (tbl : List CleanRow) (o o' : String) (v : ℝ)
    (hm : Msg.pooledSmdLine o v ∈ (processOutcome tbl o').report) :
    o = o' ∧ ¬ (validRecords tbl o').length < 2 := by
  simp only [processOutcome] at hm
  by_cases hlt : (validRecords tbl o').length < 2
  · rw [if_pos hlt] at hm
    simp at hm
  · rw [if_neg hlt] at hm
    simp at hm
    exact ⟨hm.1, hlt⟩

theorem chartsHeader_in_report (rows : List RawRow)
    (hc : (commonOutcomes (cleanTable rows)).length ≠ 0) :
    Msg.chartsHeader ∈ (runMeta (Input.ok rows)).report := by
  rw [runMeta_ok_of_common_ne rows hc]
  simp

theorem chartsHeader_not_in_console (i : Input) :
    Msg.chartsHeader ∉ (runMeta i).console := by
  intro hm
  cases i with
  | missingFile => simp [runMeta] at hm
  | readError => simp [runMeta] at hm
  | ok rows =>
    simp only [runMeta] at hm
    by_cases h0 : (cleanTable rows).length = 0
    · rw [if_pos h0] at hm
      simp at hm
    · rw [if_neg h0] at hm
      by_cases hc : (commonOutcomes (cleanTable rows)).length = 0
      · rw [if_pos hc] at hm
        simp at hm
        rcases console_foldl_mem Msg.chartsHeader
            (fun o => tee (Msg.singleStudyHeader o) ++ tee (Msg.rawValuesTable o)
              ++ tee Msg.blank)
            (uniqueKeepFirst ((cleanTable rows).map (fun r => r.outcome_name)))
            Output.nil hm with h' | ⟨o, ho, h''⟩
        · simp at h'
        · simp at h''
      · rw [if_neg hc] at hm
        simp at hm
        rcases console_foldl_mem Msg.chartsHeader
            (fun o => processOutcome (cleanTable rows) o)
            (commonOutcomes (cleanTable rows)) Output.nil hm with h' | ⟨o, ho, h''⟩
        · simp at h'
        · exact processOutcome_no_chartsHeader_console _ _ h''

theorem no_single_raw_in_report (rows : List RawRow)
    (hc : (commonOutcomes (cleanTable rows)).length ≠ 0) (o : String) :
    Msg.singleStudyHeader o ∉ (runMeta (Input.ok rows)).report
    ∧ Msg.rawValuesTable o ∉ (runMeta (Input.ok rows)).report := by
  constructor
  · intro hm
    rw [runMeta_ok_of_common_ne rows hc] at hm
    simp at hm
    rcases report_foldl_mem (Msg.singleStudyHeader o)
        (fun o' => processOutcome (cleanTable rows) o')
        (commonOutcomes (cleanTable rows)) Output.nil hm with h' | ⟨o', ho', h''⟩
    · simp at h'
    · exact processOutcome_no_singleStudyHeader _ _ _ h''
  · intro hm
    rw [runMeta_ok_of_common_ne rows hc] at hm
    simp at hm
    rcases report_foldl_mem (Msg.rawValuesTable o)
        (fun o' => processOutcome (cleanTable rows) o')
        (commonOutcomes (cleanTable rows)) Output.nil hm with h' | ⟨o', ho', h''⟩
    · simp at h'
    · exact processOutcome_no_rawValuesTable _ _ _ h''

/-- Counterexample row: first study of outcome "A", all essentials present
(`n = 2` per arm, post means `5`, post standard deviations `1`). -/
def rowA1 : RawRow := ⟨"A", "S1", some 2, some 2, some 5, some 1, some 5, some 1⟩

/-- Counterexample row: second study of outcome "A". -/
def rowA2 : RawRow := ⟨"A", "S2", some 2, some 2, some 5, some 1, some 5, some 1⟩

/-- Counterexample row: the only study of outcome "B". -/
def rowB1 : RawRow := ⟨"B", "S3", some 2, some 2, some 5, some 1, some 5, some 1⟩

/-- Concrete input table: outcome "A" has two cleaned rows, "B" has one. -/
def mtable : List RawRow := [rowA1, rowA2, rowB1]

theorem common_mtable : commonOutcomes (cleanTable mtable) = ["A"] := rfl

theorem common_mtable_ne : (commonOutcomes (cleanTable mtable)).length ≠ 0 := by
  rw [common_mtable]
  simp

theorem validRecords_mtable_B : (validRecords (cleanTable mtable) "B").length = 1 := by
  have hrow : (cleanTable mtable).filter (fun r => decide (r.outcome_name = "B"))
      = [⟨"B", "S3", 2, 2, 5, 1, 5, 1⟩] := rfl
  have hsp : sd_pooled 2 1 2 1 = 1 := by
    simp only [sd_pooled]
    norm_num [Real.sqrt_one]
  have hse : (calculate_smd 2 5 1 2 5 1).2 = 1 := by
    simp only [calculate_smd]
    rw [hsp, if_neg (one_ne_zero : (1:ℝ) ≠ 0)]
    norm_num [hedges_j, Real.sqrt_one]
  simp only [validRecords]
  rw [hrow]
  simp [List.filter_cons, hse, seValid]

/-- C4 counterexample: in the concrete run on `mtable`, outcome "B" has
exactly one record surviving the validity filter, yet the report contains
neither a single-study note nor its raw values — outcome "A" has two
studies, so the run takes the multi-study branch and never reports "B". -/
theorem single_study_cex :
    (validRecords (cleanTable mtable) "B").length = 1
    ∧ Msg.singleStudyHeader "B" ∉ (runMeta (Input.ok mtable)).report
    ∧ Msg.rawValuesTable "B" ∉ (runMeta (Input.ok mtable)).report := by
  obtain ⟨h1, h2⟩ := no_single_raw_in_report mtable common_mtable_ne "B"
  exact ⟨validRecords_mtable_B, h1, h2⟩

/-- C4 amended: in a run where some outcome has two or more cleaned rows,
no single-study note or raw-value block is emitted for any outcome at all;
an outcome with exactly one record surviving the validity filter is
excluded from pooling but also receives no single-study report (raw-value
single-study reporting happens only in runs where no outcome has two or
more cleaned rows). -/
theorem single_study_amended (rows : List RawRow) (o : String)
    (hc : (commonOutcomes (cleanTable rows)).length ≠ 0)
    (hone : (validRecords (cleanTable rows) o).length = 1) :
    Msg.singleStudyHeader o ∉ (runMeta (Input.ok rows)).report
    ∧ Msg.rawValuesTable o ∉ (runMeta (Input.ok rows)).report
    ∧ ∀ v, Msg.pooledSmdLine o v ∉ (runMeta (Input.ok rows)).report := by
  obtain ⟨h1, h2⟩ := no_single_raw_in_report rows hc o
  refine ⟨h1, h2, ?_⟩
  intro v hm
  rw [runMeta_ok_of_common_ne rows hc] at hm
  simp at hm
  rcases report_foldl_mem (Msg.pooledSmdLine o v)
      (fun o' => processOutcome (cleanTable rows) o')
      (commonOutcomes (cleanTable rows)) Output.nil hm with h' | ⟨o', ho', h''⟩
  · simp at h'
  · obtain ⟨rfl, hge⟩ := processOutcome_pooledSmdLine_inv _ _ _ _ h''
    exact hge (by rw [hone]; norm_num)

/-- Witness for the amended C4 at the concrete table `mtable`, outcome "B". -/
theorem single_study_amended_witness :
    ((commonOutcomes (cleanTable mtable)).length ≠ 0
      ∧ (validRecords (cleanTable mtable) "B").length = 1)
    ∧ (Msg.singleStudyHeader "B" ∉ (runMeta (Input.ok mtable)).report
      ∧ Msg.rawValuesTable "B" ∉ (runMeta (Input.ok mtable)).report
      ∧ ∀ v, Msg.pooledSmdLine "B" v ∉ (runMeta (Input.ok mtable)).report) :=
  ⟨⟨common_mtable_ne, validRecords_mtable_B⟩,
    single_study_amended mtable "B" common_mtable_ne validRecords_mtable_B⟩

/-- C5 counterexample: on the missing-input-file run the report is not
empty — the error message itself is tee-printed into the report file. -/
theorem fatal_report_cex :
    (runMeta Input.missingFile).report = [Msg.errorFileNotFound]
    ∧ (runMeta Input.missingFile).report ≠ [] := by
  refine ⟨rfl, ?_⟩
  intro h
  exact List.cons_ne_nil Msg.errorFileNotFound [] h

/-- C5 amended: a fatal input error (missing file, unreadable file, or a
table that cleans to zero rows) still aborts the run with a clear message,
but that message is itself written into the report, so the failed run's
report consists exactly of the error/diagnostic lines — never of analysis
content — rather than being empty. -/
theorem fatal_report_amended (rows : List RawRow) (h : cleanTable rows = []) :
    (runMeta Input.missingFile).report = [Msg.errorFileNotFound]
    ∧ (runMeta Input.readError).report = [Msg.errorReadingCSV]
    ∧ (runMeta (Input.ok rows)).report
      = [Msg.loadedRows rows.length, Msg.columnsMsg,
         Msg.outcomesAvailable (uniqueKeepFirst (rows.map (fun r => r.outcome_name))),
         Msg.studiesMsg (uniqueKeepFirst (rows.map (fun r => r.author_year))),
         Msg.blank, Msg.afterCleaning 0, Msg.noCompleteData] := by
  refine ⟨rfl, rfl, ?_⟩
  have h0 : (cleanTable rows).length = 0 := by rw [h]; rfl
  simp only [runMeta]
  rw [if_pos h0]
  simp [h]

/-- Witness for the amended C5 at the empty row list. -/
theorem fatal_report_amended_witness :
    cleanTable [] = []
    ∧ ((runMeta Input.missingFile).report = [Msg.errorFileNotFound]
      ∧ (runMeta Input.readError).report = [Msg.errorReadingCSV]
      ∧ (runMeta (Input.ok [])).report
        = [Msg.loadedRows (List.length ([] : List RawRow)), Msg.columnsMsg,
           Msg.outcomesAvailable
             (uniqueKeepFirst (([] : List RawRow).map (fun r => r.outcome_name))),
           Msg.studiesMsg
             (uniqueKeepFirst (([] : List RawRow).map (fun r => r.author_year))),
           Msg.blank, Msg.afterCleaning 0, Msg.noCompleteData]) :=
  ⟨rfl, fatal_report_amended [] rfl⟩

/-- C6 counterexample: in the concrete run on `mtable` the charts-section
header is written to the report file but never printed to the console, so
the two traces do not contain the same lines. -/
theorem tee_semantics_cex :
    Msg.chartsHeader ∈ (runMeta (Input.ok mtable)).report
    ∧ Msg.chartsHeader ∉ (runMeta (Input.ok mtable)).console :=
  ⟨chartsHeader_in_report mtable common_mtable_ne, chartsHeader_not_in_console _⟩

/-- C6 amended: `tee_print` lines do go to both destinations, but the
charts section is written to the report only and the saved-plot/final
messages to the console only; hence the console and report traces coincide
exactly when the run never enters the charts section, i.e. when no outcome
has two or more cleaned rows. -/
theorem tee_semantics_amended (i : Input) :
    (runMeta i).console = (runMeta i).report ↔ chartOutcomes i = [] := by
  constructor
  · intro h
    by_contra hne
    have hlen : (chartOutcomes i).length ≠ 0 := fun h0 => hne (List.length_eq_zero.1 h0)
    cases i with
    | missingFile => exact hne rfl
    | readError => exact hne rfl
    | ok rows =>
      have hin : Msg.chartsHeader ∈ (runMeta (Input.ok rows)).report :=
        chartsHeader_in_report rows hlen
      rw [← h] at hin
      exact chartsHeader_not_in_console _ hin
  · intro h
    cases i with
    | missingFile => rfl
    | readError => rfl
    | ok rows =>
      have hcom : commonOutcomes (cleanTable rows) = [] := h
      by_cases h0 : (cleanTable rows).length = 0
      · simp only [runMeta]
        rw [if_pos h0]
        simp
      · simp only [runMeta]
        rw [if_neg h0,
          if_pos (by rw [hcom]; rfl : (commonOutcomes (cleanTable rows)).length = 0)]
        have hf := singles_foldl_tee_eq
            (uniqueKeepFirst ((cleanTable rows).map (fun r => r.outcome_name)))
            Output.nil rfl
        simp [hf]
